import Mathlib

/-!
A verification development for the `strava_wrapped` map-generation pipeline.

The Python sources are shallowly embedded over exact real arithmetic:

* `src/lib/location_utils.py` — `LocationUtils.haversine_distance`;
* `src/clustering_utils.py` — `ActivityClusterer.find_areas_of_interest`;
* `src/lib/map_generator.py` — the Web-Mercator projection math
  (`ImageProcessor.lat_lon_to_tile`, `tile_to_lat_lon`, `lat_to_mercator_y`,
  `mercator_y_to_lat`), the path smoother (`PathSmoother.moving_average`,
  `gaussian_smooth`, `spline_smooth`), the tile cache (`TileCache.get`/`put`),
  the basemap assembler (`ImageProcessor.create_minimal_map_background`) and
  the compositor's background selection (`MapGenerator.create_multi_activity_image`).

Machine floats are modelled as `ℝ`; Python `int()` truncation is modelled by
`truncInt`; filesystem and network effects are modelled by explicit
environments of oracle functions.  External library calls
(`scipy.ndimage.gaussian_filter1d`, `scipy.interpolate.UnivariateSpline`,
`numpy.linspace`) are modelled by Lean functions implementing their
documented behaviour; each such definition carries a doc comment saying so.
-/

open Real

namespace StravaWrapped

/-! ## `LocationUtils.haversine_distance` (src/lib/location_utils.py, lines 14-43) -/

/-- Embedding of `LocationUtils.haversine_distance`: great-circle distance in km
between two points given in degrees, via the haversine formula with Earth radius
6371 km.  `math.radians x` is `x * π / 180`, `math.asin` is `Real.arcsin`,
`math.sqrt` is `Real.sqrt`. -/
noncomputable def haversine_distance (lat1 lon1 lat2 lon2 : ℝ) : ℝ :=
  let lat1_rad := lat1 * π / 180
  let lon1_rad := lon1 * π / 180
  let lat2_rad := lat2 * π / 180
  let lon2_rad := lon2 * π / 180
  let dlat := lat2_rad - lat1_rad
  let dlon := lon2_rad - lon1_rad
  let a := Real.sin (dlat / 2) ^ 2 +
    Real.cos lat1_rad * Real.cos lat2_rad * Real.sin (dlon / 2) ^ 2
  let c := 2 * Real.arcsin (Real.sqrt a)
  6371.0 * c

/-! ## `ActivityClusterer` (src/clustering_utils.py, lines 17-125) -/

/-- An activity dict as consumed by the clusterer: only its `'coordinates'`
key (a list of `[lat, lon]` pairs) is inspected. -/
structure Activity where
  coordinates : List (ℝ × ℝ)

instance : Inhabited Activity := ⟨⟨[]⟩⟩

/-- A cluster dict as produced by `find_areas_of_interest`:
`'center'`, `'activities'`, `'count'`, `'radius_km'`. -/
structure Cluster where
  center : ℝ × ℝ
  activities : List Activity
  count : ℕ
  radius_km : ℝ

/-- Embedding of the start-point extraction (clustering_utils.py lines 56-66):
activities are enumerated and those with a nonempty `'coordinates'` list are
kept, paired with their input index. -/
def start_points (activities_data : List Activity) : List (ℕ × Activity) :=
  activities_data.enum.filter fun p => !p.2.coordinates.isEmpty

/-- Latitude of the `i`-th start point (`coords[0][0]`). -/
def spLat (sp : List (ℕ × Activity)) (i : ℕ) : ℝ :=
  ((sp.getD i default).2.coordinates.headD (0, 0)).1

/-- Longitude of the `i`-th start point (`coords[0][1]`). -/
def spLon (sp : List (ℕ × Activity)) (i : ℕ) : ℝ :=
  ((sp.getD i default).2.coordinates.headD (0, 0)).2

/-- The greedy clustering loop of `find_areas_of_interest`
(clustering_utils.py lines 70-116), abstracted over the Boolean
"within radius" relation `near` between start-point positions.  `all` is the
full position list (the inner `for j` loop scans every start point), the
fourth argument is the remaining outer-loop positions, the fifth the
`used_indices` accumulator.  A position already used is skipped; otherwise the
not-yet-used positions near it are collected and, if at least `minAct` many,
form a cluster and are all marked used. -/
def greedyClusters (near : ℕ → ℕ → Bool) (minAct : ℕ) (all : List ℕ) :
    List ℕ → List ℕ → List (List ℕ)
  | [], _ => []
  | i :: rest, used =>
    if used.contains i then
      greedyClusters near minAct all rest used
    else
      let nearby := all.filter fun j => !used.contains j && near i j
      if minAct ≤ nearby.length then
        nearby :: greedyClusters near minAct all rest (used ++ nearby)
      else
        greedyClusters near minAct all rest used

open Classical in
/-- The "within radius" relation actually used by the source: haversine
distance between start points at positions `i` and `j` is at most
`radius_km` (clustering_utils.py lines 85-90). -/
noncomputable def nearReal (sp : List (ℕ × Activity)) (radius_km : ℝ) (i j : ℕ) : Bool :=
  decide (haversine_distance (spLat sp i) (spLon sp i) (spLat sp j) (spLon sp j) ≤ radius_km)

/-- Builds the cluster dict from a member-position list
(clustering_utils.py lines 96-107): center is the componentwise mean of the
member start points, `activities` the member activities in scan order. -/
noncomputable def mkCluster (sp : List (ℕ × Activity)) (radius_km : ℝ) (c : List ℕ) : Cluster :=
  { center := ((c.map (spLat sp)).sum / c.length, (c.map (spLon sp)).sum / c.length)
    activities := c.map fun j => (sp.getD j default).2
    count := c.length
    radius_km := radius_km }

/-- The member-position lists produced by one `find_areas_of_interest` call,
before clusters are materialised and sorted: the empty-input early return,
the `max(2, len // 3)` default threshold, start-point extraction, and the
greedy loop over positions `0, …, len(start_points) - 1`. -/
noncomputable def memberIndices (activities_data : List Activity) (radius_km : ℝ)
    (min_activities : Option ℕ) : List (List ℕ) :=
  if activities_data.isEmpty then [] else
  let minAct := min_activities.getD (max 2 (activities_data.length / 3))
  let sp := start_points activities_data
  greedyClusters (nearReal sp radius_km) minAct (List.range sp.length) (List.range sp.length) []

/-- Embedding of `ActivityClusterer.find_areas_of_interest`
(clustering_utils.py lines 17-125): the clusters built from `memberIndices`,
sorted by `count` descending with a stable sort (Python `list.sort` with
`reverse=True` keeps the original order of equal keys, as `mergeSort` does). -/
noncomputable def find_areas_of_interest (activities_data : List Activity) (radius_km : ℝ)
    (min_activities : Option ℕ) : List Cluster :=
  ((memberIndices activities_data radius_km min_activities).map
      (mkCluster (start_points activities_data) radius_km)).mergeSort
    fun c d => decide (d.count ≤ c.count)

/-! ## Projection math (`ImageProcessor`, map_generator.py lines 850-916) -/

/-- Python `int()` applied to a float: truncation toward zero. -/
noncomputable def truncInt (r : ℝ) : ℤ :=
  if 0 ≤ r then ⌊r⌋ else ⌈r⌉

/-- Embedding of `ImageProcessor.lat_lon_to_tile` (lines 850-867):
`x = int((lon + 180) / 360 * 2^zoom)`,
`y = int((1 - asinh(tan(radians lat)) / π) / 2 * 2^zoom)`. -/
noncomputable def lat_lon_to_tile (lat lon : ℝ) (zoom : ℕ) : ℤ × ℤ :=
  (truncInt ((lon + 180) / 360 * 2 ^ zoom),
    truncInt ((1 - Real.arsinh (Real.tan (lat * π / 180)) / π) / 2 * 2 ^ zoom))

/-- Embedding of `ImageProcessor.tile_to_lat_lon` (lines 869-886): the
north-west corner of tile `(x, y)`:
`lon = x / 2^zoom * 360 - 180`, `lat = degrees (atan (sinh (π (1 - 2 y / 2^zoom))))`. -/
noncomputable def tile_to_lat_lon (x_tile y_tile : ℤ) (zoom : ℕ) : ℝ × ℝ :=
  (Real.arctan (Real.sinh (π * (1 - 2 * (y_tile : ℝ) / 2 ^ zoom))) * 180 / π,
    (x_tile : ℝ) / 2 ^ zoom * 360 - 180)

/-- Embedding of `ImageProcessor.lat_to_mercator_y` (lines 888-902):
normalized Web-Mercator Y, `(1 - asinh(tan(radians lat)) / π) / 2`. -/
noncomputable def lat_to_mercator_y (lat : ℝ) : ℝ :=
  (1 - Real.arsinh (Real.tan (lat * π / 180)) / π) / 2

/-- Embedding of `ImageProcessor.mercator_y_to_lat` (lines 904-916). -/
noncomputable def mercator_y_to_lat (merc_y : ℝ) : ℝ :=
  Real.arctan (Real.sinh (π * (1 - 2 * merc_y))) * 180 / π

/-! ## `PathSmoother` (map_generator.py lines 1247-1341) -/

/-- Componentwise mean of the slice `l[a:b]` (`np.mean(arr[a:b], axis=0)`). -/
noncomputable def meanSlice (l : List (ℝ × ℝ)) (a b : ℕ) : ℝ × ℝ :=
  let s := (l.drop a).take (b - a)
  (((s.map Prod.fst).sum) / s.length, ((s.map Prod.snd).sum) / s.length)

/-- Embedding of `PathSmoother.moving_average` (lines 1250-1273): below the
window size the input is returned unchanged; otherwise every point is replaced
by the mean of the window `[max(0, i - w/2), min(n, i + w/2 + 1))` (window
shrinks at the boundaries; `w/2` is Python floor division; the `max(0, ·)`
clamp is ℕ truncated subtraction here). -/
noncomputable def moving_average (coordinates : List (ℝ × ℝ)) (window_size : ℕ) :
    List (ℝ × ℝ) :=
  if coordinates.length < window_size then coordinates else
  (List.range coordinates.length).map fun i =>
    meanSlice coordinates (i - window_size / 2)
      (min coordinates.length (i + window_size / 2 + 1))

/-- Reflect-mode boundary index used by `scipy.ndimage.gaussian_filter1d`:
the infinite extension `(d c b a | a b c d | d c b a)` of an `n`-element
array, sampled at signed offset `j`. -/
def reflectIndex (n : ℕ) (j : ℤ) : ℕ :=
  let m := j.emod (2 * n)
  if m < n then m.toNat else (2 * n - 1 - m).toNat

/-- Modelled from the documented behaviour of
`scipy.ndimage.gaussian_filter1d` (not part of this repository): a 1-D
convolution with a truncated normalized Gaussian kernel of radius
`int(4 σ + 0.5)`, reflect boundary mode.  The output has one entry per input
entry. -/
noncomputable def gaussian_filter1d (xs : List ℝ) (sigma : ℝ) : List ℝ :=
  let n := xs.length
  let radius := (truncInt (4 * sigma + 0.5)).toNat
  let weights := (List.range (2 * radius + 1)).map fun (k : ℕ) =>
    Real.exp (-(((k : ℝ) - radius) ^ 2) / (2 * sigma ^ 2))
  let wsum := weights.sum
  (List.range n).map fun (i : ℕ) =>
    (((List.range (2 * radius + 1)).map fun (k : ℕ) =>
      weights.getD k 0 / wsum * xs.getD (reflectIndex n ((i : ℤ) + k - radius)) 0)).sum

/-- Embedding of `PathSmoother.gaussian_smooth` (lines 1275-1295): below 3
points the input is returned unchanged; otherwise the latitude and longitude
channels are filtered independently and re-zipped (`np.column_stack`). -/
noncomputable def gaussian_smooth (coordinates : List (ℝ × ℝ)) (sigma : ℝ) :
    List (ℝ × ℝ) :=
  if coordinates.length < 3 then coordinates else
  (gaussian_filter1d (coordinates.map Prod.fst) sigma).zip
    (gaussian_filter1d (coordinates.map Prod.snd) sigma)

/-- Modelled from the documented behaviour of `numpy.linspace(0, 1, n)`:
`n` uniform samples of `[0, 1]`, i.e. `i / (n - 1)` for `i < n` (for `n = 1`
the single sample is `0`, matching the real-division-by-zero convention). -/
noncomputable def linspace01 (n : ℕ) : List ℝ :=
  (List.range n).map fun (i : ℕ) => (i : ℝ) / ((n : ℝ) - 1)

/-- One cubic segment of a cubic spline in the standard second-derivative
form: knots `tj < tj1`, values `yj, yj1`, second derivatives `mj, mj1`. -/
noncomputable def cubicPiece (tj tj1 yj yj1 mj mj1 x : ℝ) : ℝ :=
  mj * (tj1 - x) ^ 3 / (6 * (tj1 - tj)) + mj1 * (x - tj) ^ 3 / (6 * (tj1 - tj)) +
    (yj - mj * (tj1 - tj) ^ 2 / 6) * (tj1 - x) / (tj1 - tj) +
    (yj1 - mj1 * (tj1 - tj) ^ 2 / 6) * (x - tj) / (tj1 - tj)

/-- Forward sweep of the Thomas tridiagonal algorithm: rows `(a, b, c, d)`
become primed coefficients `(c', d')`. -/
noncomputable def thomasForward (rows : List (ℝ × ℝ × ℝ × ℝ)) : List (ℝ × ℝ) :=
  rows.foldl (fun acc r =>
    let (a, b, c, d) := r
    match acc.getLast? with
    | none => [(c / b, d / b)]
    | some (cp, dp) =>
        acc ++ [(c / (b - a * cp), (d - a * dp) / (b - a * cp))]) []

/-- Back substitution of the Thomas tridiagonal algorithm. -/
noncomputable def thomasBack (cds : List (ℝ × ℝ)) : List ℝ :=
  cds.foldr (fun cd acc => (cd.2 - cd.1 * acc.headD 0) :: acc) []

/-- Second derivatives of the natural cubic interpolating spline through
`(i / (n-1), ys[i])`, `n = ys.length`, via the Thomas algorithm on the
standard tridiagonal system (natural boundary: zero second derivative at both
ends). -/
noncomputable def naturalSplineM (ys : List ℝ) : List ℝ :=
  let n := ys.length
  if n < 3 then List.replicate n 0 else
  let h : ℝ := 1 / ((n : ℝ) - 1)
  let rows := (List.range (n - 2)).map fun k =>
    (h / 6, (h + h) / 3, h / 6,
      (ys.getD (k + 2) 0 - ys.getD (k + 1) 0) / h - (ys.getD (k + 1) 0 - ys.getD k 0) / h)
  0 :: (thomasBack (thomasForward rows) ++ [0])

open Classical in
/-- Evaluation of the natural cubic interpolating spline with uniform knots
`i / (n - 1)`, `i < n = ys.length`: locate the segment by flooring
`x * (n - 1)` (clamped to a valid segment) and evaluate its cubic. -/
noncomputable def interpSplineEval (ys : List ℝ) (x : ℝ) : ℝ :=
  let n := ys.length
  let ms := naturalSplineM ys
  let j := min (⌊x * ((n : ℝ) - 1)⌋).toNat (n - 2)
  cubicPiece ((j : ℝ) / ((n : ℝ) - 1)) (((j : ℝ) + 1) / ((n : ℝ) - 1))
    (ys.getD j 0) (ys.getD (j + 1) 0) (ms.getD j 0) (ms.getD (j + 1) 0) x

/-- Modelled from the documented behaviour of
`scipy.interpolate.UnivariateSpline(t, y, s, k=3)` over the uniformly spaced
parameter `t = linspace(0, 1, len y)` that `spline_smooth` always passes
(not part of this repository): at `s = 0` — the only smoothing factor the
verified claims exercise — the fitted curve is the cubic spline interpolating
every data point; it is modelled here by the natural cubic interpolating
spline.  The fit is total over exact reals (the `try/except` fallback of the
caller is unreachable in this model). -/
noncomputable def UnivariateSpline (ys : List ℝ) (smoothing_factor : ℝ) (x : ℝ) : ℝ :=
  interpSplineEval ys x

/-- Embedding of `PathSmoother.spline_smooth` (lines 1297-1341): below 4
points the input is returned unchanged; otherwise cubic splines are fitted to
the latitude and longitude channels over `t = linspace(0,1,n)` (smoothing
factor `None` defaults to `0`) and evaluated at
`linspace(0, 1, num_points)` samples (`num_points = None` defaults to the
input length). -/
noncomputable def spline_smooth (coordinates : List (ℝ × ℝ)) (smoothing_factor : Option ℝ)
    (num_points : Option ℕ) : List (ℝ × ℝ) :=
  if coordinates.length < 4 then coordinates else
  let s := smoothing_factor.getD 0
  let lat_spline := UnivariateSpline (coordinates.map Prod.fst) s
  let lng_spline := UnivariateSpline (coordinates.map Prod.snd) s
  let n := num_points.getD coordinates.length
  (linspace01 n).map fun tv => (lat_spline tv, lng_spline tv)

/-! ## `TileCache` (map_generator.py lines 45-137)

The filesystem, clock and image codec are modelled by an explicit oracle
environment `DiskEnv`; raster bytes and decoded rasters are abstract values. -/

/-- An abstract decoded raster tile. -/
abbrev Tile := ℕ

/-- A cached file: last-write timestamp (`st_mtime`) and raw bytes. -/
structure CacheEntry where
  mtime : ℤ
  bytes : ℕ

/-- Oracle environment for `TileCache`: the disk contents, the current time,
the PNG codec (`decode` returns `none` on corrupt bytes, as `Image.open`
raising), and per-path success of `unlink` and `save` (a `false` models the
corresponding `OSError`). -/
structure DiskEnv where
  fs : String → Option CacheEntry
  now : ℤ
  decode : ℕ → Option Tile
  encode : Tile → ℕ
  unlinkOk : String → Bool
  saveOk : String → Bool

/-- `TileCache.CACHE_EXPIRY_SECONDS = 30 * 24 * 60 * 60` (30 days). -/
def CACHE_EXPIRY_SECONDS : ℤ := 30 * 24 * 60 * 60

/-- Embedding of `TileCache._get_cache_key` (lines 68-71): the pre-hash key
string `f"{provider}_{zoom}_{x}_{y}"`.  The `md5` hex digest applied by the
source is modelled as the identity on this key (an injective stand-in for a
collision-resistant hash; no verified claim concerns hash collisions). -/
def cache_key (provider_name : String) (zoom : ℕ) (x y : ℤ) : String :=
  provider_name ++ "_" ++ toString zoom ++ "_" ++ toString x ++ "_" ++ toString y

/-- Embedding of `TileCache._get_cache_path` (lines 73-80): cache files live
under `provider.replace(' ', '_').lower() / zoom / key.png`. -/
def cache_path (provider_name : String) (zoom : ℕ) (x y : ℤ) : String :=
  (provider_name.map fun c => if c = ' ' then '_' else c.toLower) ++ "/" ++
    toString zoom ++ "/" ++ cache_key provider_name zoom x y ++ ".png"

/-- Pointwise update of the modelled filesystem. -/
def updateFS (fs : String → Option CacheEntry) (p : String) (e : Option CacheEntry) :
    String → Option CacheEntry :=
  fun q => if q = p then e else fs q

/-- A `try: path.unlink() except: pass` block: the file is removed when the
filesystem allows it, otherwise nothing changes and no error escapes. -/
def tryUnlink (env : DiskEnv) (fs : String → Option CacheEntry) (p : String) :
    String → Option CacheEntry :=
  if env.unlinkOk p then updateFS fs p none else fs

/-- Embedding of `TileCache.get` (lines 82-119): returns the decoded tile and
the filesystem after the call.  Absent file → `none`; age above the TTL →
best-effort delete, `none`; undecodable bytes → best-effort delete, `none`;
otherwise the decoded image. -/
def TileCache.get (env : DiskEnv) (provider_name : String) (zoom : ℕ) (x y : ℤ) :
    Option Tile × (String → Option CacheEntry) :=
  let p := cache_path provider_name zoom x y
  match env.fs p with
  | none => (none, env.fs)
  | some e =>
    if CACHE_EXPIRY_SECONDS < env.now - e.mtime then
      (none, tryUnlink env env.fs p)
    else
      match env.decode e.bytes with
      | none => (none, tryUnlink env env.fs p)
      | some img => (some img, env.fs)

/-- Embedding of `TileCache.put` (lines 121-137): `image.save` inside
`try: ... except: pass` — on success the file is (re)written, on failure the
filesystem is untouched; either way the caller continues. -/
def TileCache.put (env : DiskEnv) (provider_name : String) (zoom : ℕ) (x y : ℤ)
    (image : Tile) : String → Option CacheEntry :=
  let p := cache_path provider_name zoom x y
  if env.saveOk p then updateFS env.fs p (some ⟨env.now, env.encode image⟩) else env.fs

/-! ## Basemap assembler (`ImageProcessor.create_minimal_map_background`,
map_generator.py lines 947-1244) -/

/-- A tile provider dict (lines 1092-1108): display name, URL template,
sub-domain list, native tile size. -/
structure TileProvider where
  name : String
  url : String
  subdomains : List String
  tile_size : ℕ

/-- Oracle environment for the tile loop.  `cacheGet` abstracts
`TileCache.get` for the duration of one assembly call (each
`(provider, zoom, x, y)` key is read at most once per call, so the
within-call eviction side effects of `get` cannot influence later reads);
`net name s zoom x y` is the outcome of `requests.get` on provider `name`'s
URL with sub-domain `s` — `none` covers both non-200 responses and raised
exceptions, which the source treats alike by continuing. -/
structure TileEnv where
  cacheGet : String → ℕ → ℤ → ℤ → Option Tile
  net : String → String → ℕ → ℤ → ℤ → Option Tile

/-- One tile pasted onto the stitched canvas, tagged with the provider it
came from and whether it was a cache hit. -/
structure PasteRecord where
  provider : String
  x : ℤ
  y : ℤ
  tile : Tile
  fromCache : Bool

/-- The mutable state of the tile loop (lines 1088-1117): the canvas content
as the list of pastes, the `tiles_downloaded` / `tiles_from_cache` counters,
`provider_used`, the current canvas tile size, and the write-backs issued to
the cache. -/
structure LoopState where
  pastes : List PasteRecord
  tilesDownloaded : ℕ
  tilesFromCache : ℕ
  providerUsed : Option String
  actualTileSize : ℕ
  cacheWrites : List (String × ℕ × ℤ × ℤ × Tile)

/-- Obtaining one grid cell from one provider (lines 1133-1176): cache first;
on a miss the provider's sub-domains are tried in order and the first
successful download wins (`findSome?` is the `for subdomain ... break`
loop).  Returns the tile and whether it came from the cache. -/
def downloadCell (env : TileEnv) (p : TileProvider) (zoom : ℕ) (cell : ℤ × ℤ) :
    Option (Tile × Bool) :=
  match env.cacheGet p.name zoom cell.1 cell.2 with
  | some t => some (t, true)
  | none => (p.subdomains.findSome? fun s => env.net p.name s zoom cell.1 cell.2).map
      fun t => (t, false)

/-- One provider's pass over the whole tile grid (lines 1131-1176): every
successful cell is pasted, counted, recorded as this provider's, and — when
downloaded rather than cached — written back to the cache. -/
def providerPass (env : TileEnv) (p : TileProvider) (zoom : ℕ) (grid : List (ℤ × ℤ))
    (st : LoopState) : LoopState :=
  grid.foldl (fun st cell =>
    match downloadCell env p zoom cell with
    | none => st
    | some (t, fromCache) =>
      { st with
        pastes := st.pastes ++ [⟨p.name, cell.1, cell.2, t, fromCache⟩]
        tilesDownloaded := st.tilesDownloaded + 1
        tilesFromCache := st.tilesFromCache + (if fromCache then 1 else 0)
        providerUsed := some p.name
        cacheWrites := st.cacheWrites ++
          (if fromCache then [] else [(p.name, zoom, cell.1, cell.2, t)]) }) st

/-- The provider loop (lines 1119-1176): providers are tried in order, a
provider is skipped (`break`) as soon as any tile has been obtained, and a
provider whose native tile size differs from the current canvas recreates
the canvas (discarding previous pastes) before its pass. -/
def runProviders (env : TileEnv) (providers : List TileProvider) (zoom : ℕ)
    (grid : List (ℤ × ℤ)) (st : LoopState) : LoopState :=
  providers.foldl (fun st p =>
    if 0 < st.tilesDownloaded then st
    else
      providerPass env p zoom grid
        (if p.tile_size ≠ st.actualTileSize then
          { st with pastes := [], actualTileSize := p.tile_size }
        else st)) st

/-- The tile-acquisition stage of `create_minimal_map_background`
(lines 1088-1182): run the provider loop from an empty canvas and fail with
the source's message exactly when `tiles_downloaded == 0`. -/
def assembleTiles (env : TileEnv) (providers : List TileProvider) (zoom : ℕ)
    (grid : List (ℤ × ℤ)) (tile_size : ℕ) : Except String LoopState :=
  let st := runProviders env providers zoom grid
    { pastes := [], tilesDownloaded := 0, tilesFromCache := 0, providerUsed := none,
      actualTileSize := tile_size, cacheWrites := [] }
  if st.tilesDownloaded = 0 then
    .error "No map tiles could be downloaded from any provider"
  else .ok st

/-- Total tile-fetch failure, stated independently of the loop: every
provider misses the cache and fails every sub-domain on every grid cell. -/
def allTilesFail (env : TileEnv) (providers : List TileProvider) (zoom : ℕ)
    (grid : List (ℤ × ℤ)) : Prop :=
  ∀ p ∈ providers, ∀ cell ∈ grid,
    env.cacheGet p.name zoom cell.1 cell.2 = none ∧
    ∀ s ∈ p.subdomains, env.net p.name s zoom cell.1 cell.2 = none

/-- Whether an `Except` is an `error` (a raised exception in the source). -/
def isErr {ε α : Type} : Except ε α → Bool
  | .error _ => true
  | .ok _ => false

/-- Embedding of `ImageProcessor.get_map_bounds` (lines 918-945): min/max of
each coordinate channel, padded by `padding` times its own range.  `np.min` /
`np.max` over a channel are folds from its first element (the source raises
on an empty array; this model totalizes that case with junk bounds — no
verified claim depends on it). -/
noncomputable def get_map_bounds (coordinates : List (ℝ × ℝ)) (padding : ℝ) :
    ℝ × ℝ × ℝ × ℝ :=
  let lats := coordinates.map Prod.fst
  let lons := coordinates.map Prod.snd
  let min_lat := lats.foldl min (lats.headD 0)
  let max_lat := lats.foldl max (lats.headD 0)
  let min_lon := lons.foldl min (lons.headD 0)
  let max_lon := lons.foldl max (lons.headD 0)
  (min_lat - (max_lat - min_lat) * padding, max_lat + (max_lat - min_lat) * padding,
    min_lon - (max_lon - min_lon) * padding, max_lon + (max_lon - min_lon) * padding)

open Classical in
/-- The zoom-estimation threshold table (lines 984-995). -/
noncomputable def select_zoom (lat_range lon_range : ℝ) : ℕ :=
  if 1 < max lat_range lon_range then 10
  else if 0.5 < max lat_range lon_range then 11
  else if 0.1 < max lat_range lon_range then 12
  else if 0.05 < max lat_range lon_range then 13
  else if 0.02 < max lat_range lon_range then 14
  else 15

open Classical in
/-- The tile-grid derivation (lines 978-1034): zoom from the override or the
threshold table, corner tiles from `lat_lon_to_tile`, the ≥ 1×1 guard, and —
only without a zoom override — the asymmetric aspect-ratio expansion
(`int()` is `truncInt`; Python `//` on the positive `expand` agrees with
`Int` division). -/
noncomputable def tile_grid (min_lat max_lat min_lon max_lon : ℝ) (width height : ℕ)
    (custom_zoom : Option ℤ) : ℕ × ℤ × ℤ × ℤ × ℤ :=
  let zoom := match custom_zoom with
    | some z => z.toNat
    | none => select_zoom (max_lat - min_lat) (max_lon - min_lon)
  let p1 := lat_lon_to_tile min_lat min_lon zoom
  let p2 := lat_lon_to_tile max_lat max_lon zoom
  let min_tile_x := p1.1
  let max_tile_y := p1.2
  let max_tile_x := if min_tile_x = p2.1 then p2.1 + 1 else p2.1
  let min_tile_y := p2.2
  let max_tile_y := if min_tile_y = max_tile_y then max_tile_y + 1 else max_tile_y
  match custom_zoom with
  | some _ => (zoom, min_tile_x, max_tile_x, min_tile_y, max_tile_y)
  | none =>
    let target_aspect : ℝ := (width : ℝ) / (height : ℝ)
    let tiles_x := max_tile_x - min_tile_x + 1
    let tiles_y := max_tile_y - min_tile_y + 1
    let current_aspect : ℝ := (tiles_x : ℝ) / (tiles_y : ℝ)
    if 0.1 < |current_aspect - target_aspect| then
      if current_aspect < target_aspect then
        let expand := truncInt ((tiles_y : ℝ) * target_aspect) - tiles_x
        if 0 < expand then
          (zoom, min_tile_x - (expand - expand / 2), max_tile_x + expand / 2,
            min_tile_y, max_tile_y)
        else (zoom, min_tile_x, max_tile_x, min_tile_y, max_tile_y)
      else
        let expand := truncInt ((tiles_x : ℝ) / target_aspect) - tiles_y
        if 0 < expand then
          (zoom, min_tile_x, max_tile_x, min_tile_y - (expand - expand / 2),
            max_tile_y + expand / 2)
        else (zoom, min_tile_x, max_tile_x, min_tile_y, max_tile_y)
    else (zoom, min_tile_x, max_tile_x, min_tile_y, max_tile_y)

/-- The row-major cell list of the tile grid (`for x: for y:`, lines
1131-1132). -/
def gridCells (min_tile_x max_tile_x min_tile_y max_tile_y : ℤ) : List (ℤ × ℤ) :=
  (List.range (max_tile_x + 1 - min_tile_x).toNat).flatMap fun (dx : ℕ) =>
    (List.range (max_tile_y + 1 - min_tile_y).toNat).map fun (dy : ℕ) =>
      (min_tile_x + dx, min_tile_y + dy)

/-- The style table's human-readable description (lines 1040-1074; unknown
styles fall back to `minimal`). -/
def style_description (map_style : String) : String :=
  if map_style = "terrain" then "Terrain, minimal labels"
  else if map_style = "clean" then "Streets with place names"
  else if map_style = "light" then "Minimal"
  else if map_style = "outdoors" then "Outdoors"
  else if map_style = "streets" then "Streets"
  else "Colorful, no labels"

/-- The CartoDB provider display name per style (lines 1040-1074). -/
def carto_provider_name (map_style : String) : String :=
  if map_style = "clean" ∨ map_style = "outdoors" ∨ map_style = "streets" then
    "CartoDB Voyager"
  else "CartoDB Voyager NoLabels"

/-- The CartoDB tile URL template per style (lines 1040-1074). -/
def carto_url (map_style : String) : String :=
  if map_style = "clean" ∨ map_style = "outdoors" ∨ map_style = "streets" then
    "https://{s}.basemaps.cartocdn.com/rastertiles/voyager/{z}/{x}/{y}@2x.png"
  else "https://{s}.basemaps.cartocdn.com/rastertiles/voyager_nolabels/{z}/{x}/{y}@2x.png"

/-- The Mapbox style id per style preset (lines 1040-1074). -/
def mapbox_style (map_style : String) : String :=
  if map_style = "terrain" ∨ map_style = "outdoors" then "mapbox/outdoors-v12"
  else "mapbox/streets-v12"

/-- The prioritized provider list (lines 1091-1108): Mapbox first when a
token is configured, then the CartoDB fallback with sub-domains a-d. -/
def tile_providers (use_mapbox : Bool) (mapbox_token : String) (map_style : String) :
    List TileProvider :=
  (if use_mapbox then
    [⟨"Mapbox " ++ style_description map_style,
      "https://api.mapbox.com/styles/v1/" ++ mapbox_style map_style ++
        "/tiles/512/{z}/{x}/{y}@2x?access_token=" ++ mapbox_token,
      [""], 1024⟩]
  else []) ++
  [⟨carto_provider_name map_style, carto_url map_style, ["a", "b", "c", "d"], 512⟩]

/-- The geographic extent returned alongside the stitched raster
(lines 1184-1244). -/
structure MapExtent where
  min_lon : ℝ
  max_lon : ℝ
  min_lat : ℝ
  max_lat : ℝ
  merc_y_min : ℝ
  merc_y_max : ℝ

open Classical in
/-- The custom-zoom crop of lines 1193-1230: pixel crop box from the
requested bounds against the whole-tile extent (Mercator-Y for latitude);
when the crop box is valid the extent snaps to the requested bounds,
otherwise the whole-tile extent is kept. -/
noncomputable def crop_extent (req_min_lat req_max_lat req_min_lon req_max_lon : ℝ)
    (a_min_lat a_max_lat a_min_lon a_max_lon : ℝ) (imgW imgH : ℤ) : ℝ × ℝ × ℝ × ℝ :=
  let lon_range := a_max_lon - a_min_lon
  let a_min_merc := lat_to_mercator_y a_max_lat
  let a_max_merc := lat_to_mercator_y a_min_lat
  let merc_range := a_max_merc - a_min_merc
  let req_min_merc := lat_to_mercator_y req_max_lat
  let req_max_merc := lat_to_mercator_y req_min_lat
  let left_pct := if 0 < lon_range then (req_min_lon - a_min_lon) / lon_range else 0
  let right_pct := if 0 < lon_range then (req_max_lon - a_min_lon) / lon_range else 1
  let top_pct := if 0 < merc_range then (req_min_merc - a_min_merc) / merc_range else 0
  let bottom_pct := if 0 < merc_range then (req_max_merc - a_min_merc) / merc_range else 1
  let left := max 0 (truncInt (left_pct * imgW))
  let right := min imgW (truncInt (right_pct * imgW))
  let top := max 0 (truncInt (top_pct * imgH))
  let bottom := min imgH (truncInt (bottom_pct * imgH))
  if left < right ∧ top < bottom then
    (req_min_lat, req_max_lat, req_min_lon, req_max_lon)
  else (a_min_lat, a_max_lat, a_min_lon, a_max_lon)

/-- Embedding of `ImageProcessor.create_minimal_map_background`
(lines 947-1244): padded bounds, zoom and grid selection, the tile loop
(fatal when it obtains zero tiles), and the true tile-grid extent —
`tile_to_lat_lon` of the grid corners, snapped to the requested bounds in the
custom-zoom crop case — in both lat/lon and Mercator-Y form.  The purely
photographic steps (tone adjustment, `LANCZOS` resize) do not change the
state modelled here. -/
noncomputable def create_minimal_map_background (env : TileEnv) (use_mapbox : Bool)
    (mapbox_token : String) (coordinates : List (ℝ × ℝ)) (width height : ℕ)
    (map_style : String) (custom_zoom : Option ℤ) : Except String (LoopState × MapExtent) :=
  let b := get_map_bounds coordinates 0.02
  let g := tile_grid b.1 b.2.1 b.2.2.1 b.2.2.2 width height custom_zoom
  let zoom := g.1
  let min_tile_x := g.2.1
  let max_tile_x := g.2.2.1
  let min_tile_y := g.2.2.2.1
  let max_tile_y := g.2.2.2.2
  let providers := tile_providers use_mapbox mapbox_token map_style
  match assembleTiles env providers zoom (gridCells min_tile_x max_tile_x min_tile_y max_tile_y)
      (if use_mapbox then 1024 else 512) with
  | .error e => .error e
  | .ok st =>
    let c1 := tile_to_lat_lon min_tile_x min_tile_y zoom
    let c2 := tile_to_lat_lon (max_tile_x + 1) (max_tile_y + 1) zoom
    let a :=
      match custom_zoom with
      | none => (c2.1, c1.1, c1.2, c2.2)
      | some _ =>
        crop_extent b.1 b.2.1 b.2.2.1 b.2.2.2 c2.1 c1.1 c1.2 c2.2
          ((max_tile_x + 1 - min_tile_x) * st.actualTileSize)
          ((max_tile_y + 1 - min_tile_y) * st.actualTileSize)
    .ok (st, ⟨a.2.2.1, a.2.2.2, a.1, a.2.1,
      lat_to_mercator_y a.2.1, lat_to_mercator_y a.1⟩)

/-! ## Compositor background selection
(`MapGenerator.create_multi_activity_image`, map_generator.py lines 2026-2087) -/

/-- The background actually applied to the figure: the assembled basemap with
its extent, or a solid color. -/
inductive BackgroundChoice where
  | mapBg (st : LoopState) (extent : MapExtent)
  | solidBg (color : String)

/-- The rendered output modelled at the level the error-handling claims
need: the chosen background plus the per-activity traces drawn on top. -/
structure RenderedImage where
  background : BackgroundChoice
  traces : List (List (ℝ × ℝ))

/-- Embedding of the background-selection step of
`MapGenerator.create_multi_activity_image` (lines 2026-2087): with
`use_map_background` the basemap is attempted from the union of all
activities' coordinates inside `try:`, and any raised error falls back to the
solid `background_color`; the render then proceeds and produces an image
either way.  (Drawing details — Mercator plotting, markers, borders — are
modelled as carrying the traces through unchanged.) -/
noncomputable def create_multi_activity_image (env : TileEnv) (use_mapbox : Bool)
    (mapbox_token : String) (activities_data : List Activity) (width_px height_px : ℕ)
    (map_style : String) (custom_zoom : Option ℤ) (use_map_background : Bool)
    (background_color : String) : RenderedImage :=
  let coords_for_map := (activities_data.map (·.coordinates)).flatten
  let bg :=
    if use_map_background then
      match create_minimal_map_background env use_mapbox mapbox_token coords_for_map
          width_px height_px map_style custom_zoom with
      | .ok (st, extent) => .mapBg st extent
      | .error _ => .solidBg background_color
    else .solidBg background_color
  { background := bg, traces := activities_data.map (·.coordinates) }

/-! ## Concrete data used to exercise the clusterer

Three activities starting on the Greenwich meridian at latitudes 0°, 1° and
2°.  Adjacent start points are about 111.2 km apart and the outer pair about
222.4 km apart, so with `radius_km = 112` each point is within radius of its
neighbours but not of the far point. -/

/-- Activity starting at (0°, 0°). -/
def actA : Activity := ⟨[(0, 0)]⟩

/-- Activity starting at (1°, 0°). -/
def actS : Activity := ⟨[(1, 0)]⟩

/-- Activity starting at (2°, 0°). -/
def actB : Activity := ⟨[(2, 0)]⟩

/-- The three meridian activities in input order. -/
def exActivities : List Activity := [actA, actS, actB]

/-- The adjacency relation the haversine test realises on the three meridian
start points: positions at distance at most one are near. -/
def nearEx (i j : ℕ) : Bool := decide (i - j ≤ 1 ∧ j - i ≤ 1)

/-- Seven activities of which only the first carries coordinates: the default
clustering threshold `max 2 (7 / 3) = 2` exceeds the single available start
point. -/
def acts7 : List Activity := [⟨[(0, 0)]⟩, ⟨[]⟩, ⟨[]⟩, ⟨[]⟩, ⟨[]⟩, ⟨[]⟩, ⟨[]⟩]

/-- A tile environment in which every cache lookup misses and every download
fails. -/
def allNoneEnv : TileEnv := ⟨fun _ _ _ _ => none, fun _ _ _ _ _ => none⟩

/-- A tile environment whose network answers (with tile payload 7) only for
the provider named `"carto"`; every cache lookup misses. -/
def cartoOnlyEnv : TileEnv :=
  ⟨fun _ _ _ _ => none, fun name _ _ _ _ => if name = "carto" then some 7 else none⟩

/-- A two-provider list: a failing 1024-px provider ahead of a working
512-px one. -/
def exProviders : List TileProvider :=
  [⟨"mapbox", "mu", [""], 1024⟩, ⟨"carto", "cu", ["a", "b", "c", "d"], 512⟩]

/-- The loop state produced by assembling the one-cell grid from
`cartoOnlyEnv` with `exProviders`: the first provider yields nothing, the
second provider's first sub-domain delivers tile 7. -/
def cartoPasteState : LoopState :=
  { pastes := [⟨"carto", 0, 0, 7, false⟩], tilesDownloaded := 1, tilesFromCache := 0,
    providerUsed := some "carto", actualTileSize := 512,
    cacheWrites := [("carto", 1, 0, 0, 7)] }

/-- A concrete disk environment: one cached entry at provider `"p"`, zoom 1,
tile (0,0), written at time 0 with payload bytes that fail to decode; reads
happen at time 10, unlinks succeed, saves fail. -/
def corruptEnv : DiskEnv :=
  { fs := fun q => if q = cache_path "p" 1 0 0 then some ⟨0, 5⟩ else none
    now := 10
    decode := fun _ => none
    encode := fun t => t
    unlinkOk := fun _ => true
    saveOk := fun _ => false }

/-! # Theorems -/

/-! ## Path smoother (C1, C9) -/

theorem length_gaussian_filter1d (xs : List ℝ) (sigma : ℝ) :
    (gaussian_filter1d xs sigma).length = xs.length := by
  unfold gaussian_filter1d
  rw [List.length_map, List.length_range]

theorem length_linspace01 (n : ℕ) : (linspace01 n).length = n := by
  unfold linspace01
  rw [List.length_map, List.length_range]

/-- C1: the path smoother never errors (each algorithm is a total function);
`moving_average` and `gaussian_smooth` always return as many points as they
were given — in particular as many when the length is at least the window
size (resp. 3) — and return the input unchanged below their minimum support;
`spline_smooth` returns the input unchanged below 4 points and otherwise
exactly `num_points` points, defaulting to the input length. -/
theorem c1_path_smoother_contract (coordinates : List (ℝ × ℝ)) (window_size : ℕ)
    (sigma : ℝ) (smoothing_factor : Option ℝ) (num_points : Option ℕ) :
    (moving_average coordinates window_size).length = coordinates.length ∧
    (coordinates.length < window_size →
      moving_average coordinates window_size = coordinates) ∧
    (gaussian_smooth coordinates sigma).length = coordinates.length ∧
    (coordinates.length < 3 → gaussian_smooth coordinates sigma = coordinates) ∧
    (spline_smooth coordinates smoothing_factor num_points).length =
      (if coordinates.length < 4 then coordinates.length
        else num_points.getD coordinates.length) ∧
    (coordinates.length < 4 →
      spline_smooth coordinates smoothing_factor num_points = coordinates) := by
  refine ⟨?_, ?_, ?_, ?_, ?_, ?_⟩
  · unfold moving_average; split <;> simp
  · intro h; simp [moving_average, h]
  · unfold gaussian_smooth; split
    · rfl
    · simp [List.length_zip, length_gaussian_filter1d]
  · intro h; simp [gaussian_smooth, h]
  · unfold spline_smooth; split
    · simp_all
    · simp_all [length_linspace01]
  · intro h; simp [spline_smooth, h]

theorem c1_witness :
    (([((1 : ℝ), (2 : ℝ)), (3, 4)] : List (ℝ × ℝ)).length < 3) ∧
    moving_average [((1 : ℝ), (2 : ℝ)), (3, 4)] 3 = [(1, 2), (3, 4)] ∧
    gaussian_smooth [((1 : ℝ), (2 : ℝ)), (3, 4)] 1 = [(1, 2), (3, 4)] ∧
    spline_smooth [((1 : ℝ), (2 : ℝ)), (3, 4)] (some 0) (some 7) = [(1, 2), (3, 4)] := by
  have h := c1_path_smoother_contract [((1 : ℝ), (2 : ℝ)), (3, 4)] 3 1 (some 0) (some 7)
  exact ⟨by norm_num, h.2.1 (by norm_num), h.2.2.2.1 (by norm_num),
    h.2.2.2.2.2 (by norm_num)⟩


/-! ## Greedy clustering: structural lemmas -/

theorem greedyClusters_sublist (near : ℕ → ℕ → Bool) (m : ℕ) (all : List ℕ) :
    ∀ (rest : List ℕ), ∀ (used c : List ℕ),
      c ∈ greedyClusters near m all rest used → c.Sublist all := by
  intro rest
  induction rest with
  | nil => intro used c hc; simp [greedyClusters] at hc
  | cons i rest ih =>
    intro used c hc
    rw [greedyClusters] at hc
    dsimp only at hc
    split at hc
    · exact ih used c hc
    · split at hc
      · rcases List.mem_cons.mp hc with h | h
        · exact h ▸ List.filter_sublist all
        · exact ih _ c h
      · exact ih used c hc

theorem greedyClusters_minlen (near : ℕ → ℕ → Bool) (m : ℕ) (all : List ℕ) :
    ∀ (rest : List ℕ), ∀ (used c : List ℕ),
      c ∈ greedyClusters near m all rest used → m ≤ c.length := by
  intro rest
  induction rest with
  | nil => intro used c hc; simp [greedyClusters] at hc
  | cons i rest ih =>
    intro used c hc
    rw [greedyClusters] at hc
    dsimp only at hc
    split at hc
    · exact ih used c hc
    · split at hc
      case isTrue hlen =>
        rcases List.mem_cons.mp hc with h | h
        · exact h ▸ hlen
        · exact ih _ c h
      case isFalse => exact ih used c hc

theorem greedyClusters_not_mem_used (near : ℕ → ℕ → Bool) (m : ℕ) (all : List ℕ) :
    ∀ (rest : List ℕ), ∀ (used c : List ℕ),
      c ∈ greedyClusters near m all rest used → ∀ j ∈ c, j ∉ used := by
  intro rest
  induction rest with
  | nil => intro used c hc; simp [greedyClusters] at hc
  | cons i rest ih =>
    intro used c hc
    rw [greedyClusters] at hc
    dsimp only at hc
    split at hc
    · exact ih used c hc
    · split at hc
      · rcases List.mem_cons.mp hc with h | h
        · intro j hj
          subst h
          have := List.of_mem_filter hj
          simp at this
          exact this.1
        · intro j hj
          have := ih _ c h j hj
          simp at this
          exact this.1
      · exact ih used c hc

theorem greedyClusters_pairwise (near : ℕ → ℕ → Bool) (m : ℕ) (all : List ℕ) :
    ∀ (rest : List ℕ), ∀ (used : List ℕ),
      List.Pairwise (fun c d => ∀ j ∈ c, j ∉ d)
        (greedyClusters near m all rest used) := by
  intro rest
  induction rest with
  | nil => intro used; simp [greedyClusters]
  | cons i rest ih =>
    intro used
    rw [greedyClusters]
    dsimp only
    split
    · exact ih used
    · split
      · refine List.Pairwise.cons ?_ (ih _)
        intro d hd j hj hjd
        have := greedyClusters_not_mem_used near m all rest _ d hd j hjd
        exact this (List.mem_append_right _ hj)
      · exact ih used

theorem greedyClusters_cover (near : ℕ → ℕ → Bool) (all : List ℕ)
    (hnear : ∀ i ∈ all, near i i = true) :
    ∀ (rest : List ℕ), ∀ (used : List ℕ), (∀ x ∈ rest, x ∈ all) →
      ∀ i ∈ rest, i ∈ used ∨
        ∃ c ∈ greedyClusters near 1 all rest used, i ∈ c := by
  intro rest
  induction rest with
  | nil => intro used _ i hi; simp at hi
  | cons i0 rest ih =>
    intro used hsub i hi
    rw [greedyClusters]
    by_cases hu : used.contains i0
    · rw [if_pos hu]
      rcases List.mem_cons.mp hi with h | h
      · subst h
        left
        simpa using hu
      · exact ih used (fun x hx => hsub x (List.mem_cons_of_mem _ hx)) i h
    · rw [if_neg hu]
      have hmem : i0 ∈ all.filter fun j => !used.contains j && near i0 j := by
        refine List.mem_filter.mpr ⟨hsub i0 (List.mem_cons_self _ _), ?_⟩
        simp only [Bool.and_eq_true, Bool.not_eq_true']
        exact ⟨by simpa using hu, hnear i0 (hsub i0 (List.mem_cons_self _ _))⟩
      have hlen : 1 ≤ (all.filter fun j => !used.contains j && near i0 j).length :=
        List.length_pos.mpr (List.ne_nil_of_mem hmem)
      rw [if_pos hlen]
      rcases List.mem_cons.mp hi with h | h
      · subst h
        right
        exact ⟨_, List.mem_cons_self _ _, hmem⟩
      · rcases ih (used ++ all.filter fun j => !used.contains j && near i0 j)
          (fun x hx => hsub x (List.mem_cons_of_mem _ hx)) i h with h2 | h2
        · rcases List.mem_append.mp h2 with h3 | h3
          · exact Or.inl h3
          · exact Or.inr ⟨_, List.mem_cons_self _ _, h3⟩
        · obtain ⟨c, hc, hic⟩ := h2
          exact Or.inr ⟨c, List.mem_cons_of_mem _ hc, hic⟩

theorem greedyClusters_congr (near1 near2 : ℕ → ℕ → Bool) (m : ℕ) (all : List ℕ)
    (h : ∀ i ∈ all, ∀ j ∈ all, near1 i j = near2 i j) :
    ∀ (rest : List ℕ), ∀ (used : List ℕ), (∀ x ∈ rest, x ∈ all) →
      greedyClusters near1 m all rest used = greedyClusters near2 m all rest used := by
  intro rest
  induction rest with
  | nil => intro used _; rfl
  | cons i rest ih =>
    intro used hsub
    have hfil : (all.filter fun j => !used.contains j && near1 i j) =
        all.filter fun j => !used.contains j && near2 i j := by
      apply List.filter_congr
      intro j hj
      rw [h i (hsub i (List.mem_cons_self _ _)) j hj]
    rw [greedyClusters, greedyClusters, hfil]
    dsimp only
    split
    · exact ih used (fun x hx => hsub x (List.mem_cons_of_mem _ hx))
    · split
      · rw [ih _ (fun x hx => hsub x (List.mem_cons_of_mem _ hx))]
      · exact ih used (fun x hx => hsub x (List.mem_cons_of_mem _ hx))

theorem greedyClusters_seed (near : ℕ → ℕ → Bool) (m : ℕ) (all : List ℕ) :
    ∀ (rest : List ℕ), ∀ (used c : List ℕ),
      c ∈ greedyClusters near m all rest used → ∃ i, ∀ j ∈ c, near i j = true := by
  intro rest
  induction rest with
  | nil => intro used c hc; simp [greedyClusters] at hc
  | cons i rest ih =>
    intro used c hc
    rw [greedyClusters] at hc
    dsimp only at hc
    split at hc
    · exact ih used c hc
    · split at hc
      · rcases List.mem_cons.mp hc with h | h
        · refine ⟨i, fun j hj => ?_⟩
          subst h
          have := List.of_mem_filter hj
          simp only [Bool.and_eq_true] at this
          exact this.2
        · exact ih _ c h
      · exact ih used c hc

/-! ## Clusterer invariants (C5, C10) -/

theorem countP_enumFrom (p : Activity → Bool) (l : List Activity) :
    ∀ s, ((List.enumFrom s l).countP fun q => p q.2) = l.countP p := by
  induction l with
  | nil => intro s; rfl
  | cons a l ih => intro s; simp [List.enumFrom, List.countP_cons, ih]

theorem start_points_length (activities_data : List Activity) :
    (start_points activities_data).length =
      activities_data.countP fun a => !a.coordinates.isEmpty := by
  unfold start_points
  rw [← List.countP_eq_length_filter]
  exact countP_enumFrom (fun a => !a.coordinates.isEmpty) activities_data 0

theorem mem_cluster_coords_ne_nil (activities_data : List Activity) (radius_km : ℝ)
    (min_activities : Option ℕ) (C : Cluster)
    (hC : C ∈ find_areas_of_interest activities_data radius_km min_activities) :
    ∀ a ∈ C.activities, a.coordinates ≠ [] := by
  intro a ha
  unfold find_areas_of_interest at hC
  have hC' := (List.mergeSort_perm _ _).mem_iff.mp hC
  obtain ⟨c, hc, hmk⟩ := List.mem_map.mp hC'
  subst hmk
  unfold memberIndices at hc
  split at hc
  · simp at hc
  · obtain ⟨j, hj, hja⟩ := List.mem_map.mp ha
    have hsub := greedyClusters_sublist _ _ _ _ _ c hc
    have hjlt : j < (start_points activities_data).length := by
      simpa using hsub.subset hj
    rw [List.getD_eq_getElem _ _ hjlt] at hja
    have hmem : (start_points activities_data)[j] ∈ start_points activities_data :=
      List.getElem_mem hjlt
    have hpred := (List.mem_filter.mp hmem).2
    subst hja
    simpa using hpred

/-- C5: within one `find_areas_of_interest` call, no start point is assigned
twice: the member-position lists underlying the returned clusters are
pairwise disjoint, and the returned cluster list is — up to the final stable
sort — exactly those member lists materialised by `mkCluster`, so each
activity occurrence belongs to at most one returned cluster. -/
theorem c5_clusters_disjoint (activities_data : List Activity) (radius_km : ℝ)
    (min_activities : Option ℕ) :
    List.Pairwise (fun c d => ∀ j ∈ c, j ∉ d)
      (memberIndices activities_data radius_km min_activities) ∧
    (find_areas_of_interest activities_data radius_km min_activities).Perm
      ((memberIndices activities_data radius_km min_activities).map
        (mkCluster (start_points activities_data) radius_km)) := by
  constructor
  · unfold memberIndices
    split
    · simp
    · exact greedyClusters_pairwise _ _ _ _ _
  · unfold find_areas_of_interest
    exact List.mergeSort_perm _ _

/-- C10: activities with an empty `'coordinates'` list are never members of
any returned cluster, yet they still count toward the default threshold
`max 2 (len / 3)`, which is computed on the full input list before
coordinate-less activities are discarded; so whenever fewer activities carry
coordinates than that default threshold, no cluster can be formed at all. -/
theorem c10_coordinateless_dilution (activities_data : List Activity) (radius_km : ℝ) :
    (∀ C ∈ find_areas_of_interest activities_data radius_km none,
      ∀ a ∈ C.activities, a.coordinates ≠ []) ∧
    ((activities_data.countP fun a => !a.coordinates.isEmpty) <
        max 2 (activities_data.length / 3) →
      find_areas_of_interest activities_data radius_km none = []) := by
  constructor
  · intro C hC
    exact mem_cluster_coords_ne_nil _ _ _ C hC
  · intro h
    have hidx : memberIndices activities_data radius_km none = [] := by
      unfold memberIndices
      split
      · rfl
      · rw [List.eq_nil_iff_forall_not_mem]
        intro c hc
        have h1 := greedyClusters_minlen _ _ _ _ _ c hc
        have h2 := (greedyClusters_sublist _ _ _ _ _ c hc).length_le
        rw [List.length_range, start_points_length] at h2
        simp only [Option.getD_none] at h1
        omega
    unfold find_areas_of_interest
    rw [hidx]
    exact List.mergeSort_nil

theorem c10_witness :
    ((acts7.countP fun a => !a.coordinates.isEmpty) < max 2 (acts7.length / 3)) ∧
    find_areas_of_interest acts7 5 none = [] := by
  have h : (acts7.countP fun a => !a.coordinates.isEmpty) < max 2 (acts7.length / 3) := by
    norm_num [acts7, List.countP_cons]
  exact ⟨h, (c10_coordinateless_dilution acts7 5).2 h⟩

/-! ## Haversine facts -/

theorem haversine_nonneg (lat1 lon1 lat2 lon2 : ℝ) :
    0 ≤ haversine_distance lat1 lon1 lat2 lon2 := by
  unfold haversine_distance
  dsimp only
  refine mul_nonneg (by norm_num) (mul_nonneg (by norm_num) ?_)
  exact Real.arcsin_nonneg.mpr (Real.sqrt_nonneg _)

theorem haversine_self (lat lon : ℝ) : haversine_distance lat lon lat lon = 0 := by
  unfold haversine_distance
  simp

/-- On a meridian the haversine distance reduces to Earth radius times the
latitude difference in radians (for small nonnegative differences). -/
theorem haversine_meridian (l1 l2 : ℝ) (h0 : 0 ≤ l2 - l1)
    (h2 : (l2 - l1) * π / 360 ≤ π / 2) :
    haversine_distance l1 0 l2 0 = 6371 * ((l2 - l1) * π / 180) := by
  unfold haversine_distance
  dsimp only
  have hz : (0 : ℝ) * π / 180 - 0 * π / 180 = 0 := by ring
  rw [hz]
  have hx : (l2 * π / 180 - l1 * π / 180) / 2 = (l2 - l1) * π / 360 := by ring
  rw [hx]
  have hxnn : 0 ≤ (l2 - l1) * π / 360 := by
    have := Real.pi_pos
    positivity
  have hsin : 0 ≤ Real.sin ((l2 - l1) * π / 360) := by
    refine Real.sin_nonneg_of_nonneg_of_le_pi hxnn ?_
    nlinarith [Real.pi_pos]
  rw [show (0 : ℝ) / 2 = 0 by norm_num, Real.sin_zero]
  rw [show (0 : ℝ) ^ 2 = 0 by norm_num, mul_zero, add_zero]
  rw [Real.sqrt_sq hsin]
  rw [Real.arcsin_sin (by nlinarith [Real.pi_pos]) h2]
  ring

theorem haversine_adjacent_le (l1 l2 : ℝ) (h : l2 - l1 = 1) :
    haversine_distance l1 0 l2 0 ≤ 112 := by
  rw [haversine_meridian l1 l2 (by rw [h]; norm_num)
    (by rw [h]; nlinarith [Real.pi_pos]), h]
  nlinarith [Real.pi_lt_d2]

theorem haversine_far_gt : 112 < haversine_distance 0 0 2 0 := by
  rw [haversine_meridian 0 2 (by norm_num) (by nlinarith [Real.pi_pos])]
  nlinarith [Real.pi_gt_three]

theorem haversine_comm (lat1 lon1 lat2 lon2 : ℝ) :
    haversine_distance lat1 lon1 lat2 lon2 = haversine_distance lat2 lon2 lat1 lon1 := by
  unfold haversine_distance
  dsimp only
  have e : ∀ a b : ℝ, Real.sin ((a - b) / 2) ^ 2 = Real.sin ((b - a) / 2) ^ 2 := by
    intro a b
    rw [show (a - b) / 2 = -((b - a) / 2) by ring, Real.sin_neg, neg_sq]
  rw [e (lat2 * π / 180) (lat1 * π / 180), e (lon2 * π / 180) (lon1 * π / 180),
    mul_comm (Real.cos (lat1 * π / 180)) (Real.cos (lat2 * π / 180))]

/-! ## The meridian example: concrete clustering runs (C2) -/

theorem nearReal_ex (i j : ℕ) (hi : i < 3) (hj : j < 3) :
    nearReal (start_points exActivities) 112 i j = nearEx i j := by
  have h00 : haversine_distance (0 : ℝ) 0 0 0 ≤ 112 := by rw [haversine_self]; norm_num
  have h11 : haversine_distance (1 : ℝ) 0 1 0 ≤ 112 := by rw [haversine_self]; norm_num
  have h22 : haversine_distance (2 : ℝ) 0 2 0 ≤ 112 := by rw [haversine_self]; norm_num
  have h01 : haversine_distance (0 : ℝ) 0 1 0 ≤ 112 :=
    haversine_adjacent_le 0 1 (by norm_num)
  have h12 : haversine_distance (1 : ℝ) 0 2 0 ≤ 112 :=
    haversine_adjacent_le 1 2 (by norm_num)
  have h10 : haversine_distance (1 : ℝ) 0 0 0 ≤ 112 := by rw [haversine_comm]; exact h01
  have h21 : haversine_distance (2 : ℝ) 0 1 0 ≤ 112 := by rw [haversine_comm]; exact h12
  have h02 : ¬ haversine_distance (0 : ℝ) 0 2 0 ≤ 112 := not_le.mpr haversine_far_gt
  have h20 : ¬ haversine_distance (2 : ℝ) 0 0 0 ≤ 112 := by rw [haversine_comm]; exact h02
  interval_cases i <;> interval_cases j
  exacts [decide_eq_true h00, decide_eq_true h01, decide_eq_false h02,
    decide_eq_true h10, decide_eq_true h11, decide_eq_true h12,
    decide_eq_false h20, decide_eq_true h21, decide_eq_true h22]

theorem memberIndices_run1 : memberIndices exActivities 112 (some 3) = [[0, 1, 2]] := by
  unfold memberIndices
  rw [if_neg (by decide)]
  dsimp only
  rw [show (start_points exActivities).length = 3 from rfl]
  rw [greedyClusters_congr (nearReal (start_points exActivities) 112) nearEx _ (List.range 3)
    (fun i hi j hj => nearReal_ex i j (List.mem_range.mp hi) (List.mem_range.mp hj))
    (List.range 3) [] (fun x hx => hx)]
  rfl

theorem memberIndices_run2 : memberIndices exActivities 112 (some 1) = [[0, 1], [2]] := by
  unfold memberIndices
  rw [if_neg (by decide)]
  dsimp only
  rw [show (start_points exActivities).length = 3 from rfl]
  rw [greedyClusters_congr (nearReal (start_points exActivities) 112) nearEx _ (List.range 3)
    (fun i hi j hj => nearReal_ex i j (List.mem_range.mp hi) (List.mem_range.mp hj))
    (List.range 3) [] (fun x hx => hx)]
  rfl

theorem run1_activities :
    (find_areas_of_interest exActivities 112 (some 3)).map Cluster.activities =
      [[actA, actS, actB]] := by
  unfold find_areas_of_interest
  rw [memberIndices_run1]
  simp only [List.map_cons, List.map_nil]
  rw [List.perm_singleton.mp (List.mergeSort_perm _ _)]
  rfl

theorem run2_length :
    (find_areas_of_interest exActivities 112 (some 1)).length = 2 := by
  unfold find_areas_of_interest
  rw [List.length_mergeSort, List.length_map, memberIndices_run2]
  rfl

/-! ## Re-clustering a returned cluster (C2) -/

/-- C2 (amended): re-running `find_areas_of_interest` on a returned cluster's
member list with the same radius and `min_activities = 1` assigns every
member to some resulting cluster (the re-run's clusters cover all of the
original cluster's members) — but, as `c2_counterexample` shows, possibly in
more than one cluster, since members are within `radius_km` of the original
seed rather than of each other. -/
theorem c2_recluster_covers (activities_data : List Activity) (radius_km : ℝ)
    (min_activities : Option ℕ) (C : Cluster)
    (hC : C ∈ find_areas_of_interest activities_data radius_km min_activities) :
    ∀ a ∈ C.activities,
      ∃ D ∈ find_areas_of_interest C.activities radius_km (some 1), a ∈ D.activities := by
  intro a ha
  have hcoords := mem_cluster_coords_ne_nil _ _ _ C hC
  -- the radius is nonnegative, because some member is within it of the seed
  have hr : 0 ≤ radius_km := by
    unfold find_areas_of_interest at hC
    have hC' := (List.mergeSort_perm _ _).mem_iff.mp hC
    obtain ⟨c, hc, hmk⟩ := List.mem_map.mp hC'
    unfold memberIndices at hc
    split at hc
    · simp at hc
    · obtain ⟨i0, hseed⟩ := greedyClusters_seed _ _ _ _ _ c hc
      have hcne : c ≠ [] := by
        intro hnil
        rw [← hmk] at ha
        simp [mkCluster, hnil] at ha
      obtain ⟨j, hj⟩ := List.exists_mem_of_ne_nil c hcne
      have hnear := hseed j hj
      rw [nearReal, decide_eq_true_eq] at hnear
      exact le_trans (haversine_nonneg _ _ _ _) hnear
  -- in the re-run every activity has coordinates, so no start point is lost
  have hsp2 : start_points C.activities = C.activities.enum := by
    unfold start_points
    rw [List.filter_eq_self]
    intro p hp
    have hmem : p.2 ∈ C.activities := by
      obtain ⟨-, hlt, heq⟩ := List.mem_enumFrom hp
      rw [heq]
      exact List.getElem_mem _
    simpa using hcoords p.2 hmem
  obtain ⟨k, hk, hka⟩ := List.mem_iff_getElem.mp ha
  have hklt : k < (start_points C.activities).length := by
    rw [hsp2, List.enum_length]; exact hk
  -- coverage of the greedy pass with threshold 1
  have hcover := greedyClusters_cover (nearReal (start_points C.activities) radius_km)
    (List.range (start_points C.activities).length)
    (fun i _ => by
      rw [nearReal, decide_eq_true_eq, haversine_self]
      exact hr)
    (List.range (start_points C.activities).length) [] (fun x hx => hx)
    k (List.mem_range.mpr hklt)
  rcases hcover with h | ⟨c', hc', hkc'⟩
  · simp at h
  · refine ⟨mkCluster (start_points C.activities) radius_km c', ?_, ?_⟩
    · unfold find_areas_of_interest
      refine (List.mergeSort_perm _ _).mem_iff.mpr ?_
      refine List.mem_map_of_mem _ ?_
      unfold memberIndices
      rw [if_neg (by simp [List.isEmpty_iff, List.ne_nil_of_mem ha])]
      exact hc'
    · show a ∈ c'.map fun j => ((start_points C.activities).getD j default).2
      refine List.mem_map.mpr ⟨k, hkc', ?_⟩
      rw [List.getD_eq_getElem _ _ hklt]
      have : (start_points C.activities)[k] = (k, C.activities[k]) := by
        have h1 := hsp2
        rw [List.getElem_of_eq h1, List.getElem_enum]
      rw [this, hka]

/-- C2 counterexample: for the three meridian activities with radius 112 km
and `min_activities = 3`, one cluster is returned and its member list is
`[actA, actS, actB]` (seeded at `actS`); re-running `find_areas_of_interest`
on exactly that member list with the same radius and `min_activities = 1`
yields two clusters (`{actA, actS}` seeded at `actA`, then `{actB}`), not
exactly one cluster containing all members. -/
theorem c2_counterexample :
    (find_areas_of_interest exActivities 112 (some 3)).map Cluster.activities =
      [[actA, actS, actB]] ∧
    (find_areas_of_interest [actA, actS, actB] 112 (some 1)).length = 2 :=
  ⟨run1_activities, run2_length⟩

theorem c2_witness :
    ∃ D ∈ find_areas_of_interest [actA, actS, actB] 112 (some 1),
      actA ∈ D.activities := by
  obtain ⟨C, hCmem, hCact⟩ : ∃ C ∈ find_areas_of_interest exActivities 112 (some 3),
      C.activities = [actA, actS, actB] := by
    have h := run1_activities
    cases hfa : find_areas_of_interest exActivities 112 (some 3) with
    | nil => rw [hfa] at h; simp at h
    | cons C tl =>
      rw [hfa] at h
      cases tl with
      | nil =>
        refine ⟨C, by simp, ?_⟩
        simpa using h
      | cons D tl2 => simp at h
  have hcov := c2_recluster_covers exActivities 112 (some 3) C hCmem actA
    (by rw [hCact]; simp)
  rw [hCact] at hcov
  exact hcov

/-! ## Tile round-trip (C3) -/

theorem truncInt_natCast (n : ℕ) : truncInt (n : ℝ) = n := by
  unfold truncInt
  rw [if_pos (by positivity)]
  exact_mod_cast Int.floor_natCast n

/-- C3: for every zoom level and every tile coordinate valid at that zoom,
`lat_lon_to_tile` applied to the north-west corner returned by
`tile_to_lat_lon` recovers exactly the same tile coordinate.  (Proved for
all valid tiles; the practical-Mercator-limit proviso of the claim is not
even needed, since over exact reals the NW-corner latitude of a valid tile
always lies strictly inside ±90°.) -/
theorem c3_tile_roundtrip (zoom : ℕ) (x y : ℕ) (hx : x < 2 ^ zoom) (hy : y < 2 ^ zoom) :
    lat_lon_to_tile (tile_to_lat_lon x y zoom).1 (tile_to_lat_lon x y zoom).2 zoom =
      ((x : ℤ), (y : ℤ)) := by
  have hn : ((2 : ℝ) ^ zoom) ≠ 0 := by positivity
  have hpi := Real.pi_ne_zero
  unfold tile_to_lat_lon lat_lon_to_tile
  dsimp only
  congr 1
  · rw [show ((x : ℤ) : ℝ) / 2 ^ zoom * 360 - 180 + 180 = ((x : ℤ) : ℝ) / 2 ^ zoom * 360 from
      by ring]
    rw [show ((x : ℤ) : ℝ) / 2 ^ zoom * 360 / 360 * 2 ^ zoom = ((x : ℤ) : ℝ) from by
      field_simp; ring]
    rw [show (((x : ℤ) : ℝ)) = ((x : ℕ) : ℝ) from by push_cast; ring]
    exact truncInt_natCast x
  · rw [show Real.arctan (Real.sinh (π * (1 - 2 * ((y : ℤ) : ℝ) / 2 ^ zoom))) * 180 / π * π / 180
        = Real.arctan (Real.sinh (π * (1 - 2 * ((y : ℤ) : ℝ) / 2 ^ zoom))) from by
      field_simp]
    rw [Real.tan_arctan, Real.arsinh_sinh]
    rw [show (1 - π * (1 - 2 * ((y : ℤ) : ℝ) / 2 ^ zoom) / π) / 2 * 2 ^ zoom
        = ((y : ℤ) : ℝ) from by field_simp; ring]
    rw [show (((y : ℤ) : ℝ)) = ((y : ℕ) : ℝ) from by push_cast; ring]
    exact truncInt_natCast y

theorem c3_witness :
    ((0 : ℕ) < 2 ^ 1 ∧ (1 : ℕ) < 2 ^ 1) ∧
    lat_lon_to_tile (tile_to_lat_lon 0 1 1).1 (tile_to_lat_lon 0 1 1).2 1 = (0, 1) :=
  ⟨⟨by norm_num, by norm_num⟩, c3_tile_roundtrip 1 0 1 (by norm_num) (by norm_num)⟩

/-! ## Spline interpolation at the knots (C9) -/

theorem cubicPiece_left (tj tj1 yj yj1 mj mj1 : ℝ) (h : tj1 - tj ≠ 0) :
    cubicPiece tj tj1 yj yj1 mj mj1 tj = yj := by
  unfold cubicPiece
  field_simp
  ring

theorem cubicPiece_right (tj tj1 yj yj1 mj mj1 : ℝ) (h : tj1 - tj ≠ 0) :
    cubicPiece tj tj1 yj yj1 mj mj1 tj1 = yj1 := by
  unfold cubicPiece
  field_simp
  ring

theorem interpSplineEval_knot (ys : List ℝ) (i : ℕ) (h2 : 2 ≤ ys.length)
    (hi : i < ys.length) :
    interpSplineEval ys ((i : ℝ) / ((ys.length : ℝ) - 1)) = ys.getD i 0 := by
  have hne : ((ys.length : ℝ) - 1) ≠ 0 := by
    have : (2 : ℝ) ≤ (ys.length : ℝ) := by exact_mod_cast h2
    nlinarith
  unfold interpSplineEval
  dsimp only
  have hfloor : (⌊(i : ℝ) / ((ys.length : ℝ) - 1) * ((ys.length : ℝ) - 1)⌋).toNat = i := by
    rw [div_mul_cancel₀ _ hne, Int.floor_natCast]
    exact Int.toNat_natCast i
  rw [hfloor]
  rcases Nat.lt_or_ge i (ys.length - 1) with hlt | hge
  · rw [min_eq_left (by omega)]
    refine cubicPiece_left _ _ _ _ _ _ ?_
    rw [div_sub_div_same, add_sub_cancel_left]
    exact one_div_ne_zero hne
  · have hieq : i = ys.length - 1 := by omega
    rw [min_eq_right (by omega)]
    have hx : (i : ℝ) / ((ys.length : ℝ) - 1) =
        (((ys.length - 2 : ℕ) : ℝ) + 1) / ((ys.length : ℝ) - 1) := by
      congr 1
      rw [hieq, Nat.cast_sub (by omega), Nat.cast_sub (by omega)]
      push_cast
      ring
    rw [hx, show i = ys.length - 2 + 1 from by omega]
    refine cubicPiece_right _ _ _ _ _ _ ?_
    rw [div_sub_div_same, add_sub_cancel_left]
    exact one_div_ne_zero hne

/-- C9: with `smoothing_factor = 0` and `output_point_count` equal to the
input length, `spline_smooth` on a trace of at least 4 points passes through
every original input point — indeed it reproduces the input trace exactly,
because the evaluation grid coincides with the interpolation knots. -/
theorem c9_spline_interpolation (coordinates : List (ℝ × ℝ))
    (h4 : 4 ≤ coordinates.length) :
    spline_smooth coordinates (some 0) (some coordinates.length) = coordinates := by
  unfold spline_smooth
  rw [if_neg (by omega)]
  dsimp only [Option.getD_some]
  unfold linspace01
  rw [List.map_map]
  apply List.ext_getElem
  · rw [List.length_map, List.length_range]
  · intro idx h1 h2
    rw [List.getElem_map, List.getElem_range]
    unfold UnivariateSpline
    have e1 := interpSplineEval_knot (coordinates.map Prod.fst) idx
      (by rw [List.length_map]; omega) (by rw [List.length_map]; exact h2)
    have e2 := interpSplineEval_knot (coordinates.map Prod.snd) idx
      (by rw [List.length_map]; omega) (by rw [List.length_map]; exact h2)
    rw [List.length_map] at e1 e2
    rw [List.getD_eq_getElem _ _ (by rw [List.length_map]; exact h2)] at e1 e2
    rw [List.getElem_map] at e1 e2
    show (interpSplineEval (coordinates.map Prod.fst) _,
      interpSplineEval (coordinates.map Prod.snd) _) = coordinates[idx]
    rw [e1, e2]

theorem c9_witness :
    4 ≤ ([((0 : ℝ), (0 : ℝ)), (1, 1), (2, 0), (3, 1)] : List (ℝ × ℝ)).length ∧
    spline_smooth [((0 : ℝ), (0 : ℝ)), (1, 1), (2, 0), (3, 1)] (some 0) (some 4) =
      [((0 : ℝ), (0 : ℝ)), (1, 1), (2, 0), (3, 1)] :=
  ⟨by norm_num, c9_spline_interpolation [((0 : ℝ), (0 : ℝ)), (1, 1), (2, 0), (3, 1)]
    (by norm_num)⟩

/-! ## Tile cache (C8) -/

/-- C8: `TileCache.get` returns `None` exactly when the entry is absent, its
age exceeds the 30-day TTL, or its stored bytes fail to decode; a failed
decode best-effort-deletes the corrupt entry (it is gone whenever the
filesystem permits the unlink, and no error escapes either way); and
`TileCache.put` never raises to the caller: it either writes its own path or,
when the save fails, returns the filesystem unchanged — and it never
disturbs any other path. -/
theorem c8_tile_cache_contract (env : DiskEnv) (provider_name : String) (zoom : ℕ)
    (x y : ℤ) (image : Tile) :
    ((TileCache.get env provider_name zoom x y).1 = none ↔
      (env.fs (cache_path provider_name zoom x y) = none ∨
        (∃ e, env.fs (cache_path provider_name zoom x y) = some e ∧
          CACHE_EXPIRY_SECONDS < env.now - e.mtime) ∨
        (∃ e, env.fs (cache_path provider_name zoom x y) = some e ∧
          env.now - e.mtime ≤ CACHE_EXPIRY_SECONDS ∧ env.decode e.bytes = none))) ∧
    (∀ e, env.fs (cache_path provider_name zoom x y) = some e →
      env.now - e.mtime ≤ CACHE_EXPIRY_SECONDS → env.decode e.bytes = none →
      env.unlinkOk (cache_path provider_name zoom x y) = true →
      (TileCache.get env provider_name zoom x y).2 (cache_path provider_name zoom x y) =
        none) ∧
    (env.saveOk (cache_path provider_name zoom x y) = false →
      TileCache.put env provider_name zoom x y image = env.fs) ∧
    (∀ q, q ≠ cache_path provider_name zoom x y →
      TileCache.put env provider_name zoom x y image q = env.fs q) := by
  refine ⟨?_, ?_, ?_, ?_⟩
  · unfold TileCache.get
    dsimp only
    split
    case _ heq => simp [heq]
    case _ e heq =>
      by_cases hexp : CACHE_EXPIRY_SECONDS < env.now - e.mtime
      · rw [if_pos hexp]
        simp only [heq]
        constructor
        · intro _
          exact Or.inr (Or.inl ⟨e, rfl, hexp⟩)
        · intro _
          trivial
      · rw [if_neg hexp]
        split
        case _ hdec =>
          simp only [heq]
          constructor
          · intro _
            exact Or.inr (Or.inr ⟨e, rfl, not_lt.mp hexp, hdec⟩)
          · intro _
            trivial
        case _ img hdec =>
          constructor
          · intro habs
            exact absurd habs (by simp)
          · rintro (h | ⟨e', he', hlt⟩ | ⟨e', he', _, hd⟩)
            · rw [heq] at h
              exact absurd h (by simp)
            · rw [heq] at he'
              obtain rfl : e = e' := Option.some_inj.mp he'
              exact absurd hlt hexp
            · rw [heq] at he'
              obtain rfl : e = e' := Option.some_inj.mp he'
              rw [hd] at hdec
              exact absurd hdec (by simp)
  · intro e heq hexp hdec hunl
    unfold TileCache.get tryUnlink updateFS
    simp [heq, not_lt.mpr hexp, hdec, hunl]
  · intro hsave
    unfold TileCache.put
    simp [hsave]
  · intro q hq
    unfold TileCache.put updateFS
    split
    · simp [hq]
    · rfl

theorem c8_witness :
    (TileCache.get corruptEnv "p" 1 0 0).1 = none ∧
    (TileCache.get corruptEnv "p" 1 0 0).2 (cache_path "p" 1 0 0) = none ∧
    TileCache.put corruptEnv "p" 1 0 0 7 = corruptEnv.fs := by
  have h := c8_tile_cache_contract corruptEnv "p" 1 0 0 7
  refine ⟨?_, ?_, ?_⟩
  · exact h.1.mpr (Or.inr (Or.inr ⟨⟨0, 5⟩, by simp [corruptEnv], by decide, rfl⟩))
  · exact h.2.1 ⟨0, 5⟩ (by simp [corruptEnv]) (by decide) rfl rfl
  · exact h.2.2.1 rfl

/-! ## Basemap assembler: provider loop lemmas (C6, C7) -/

theorem downloadCell_eq_none_iff (env : TileEnv) (p : TileProvider) (zoom : ℕ)
    (cell : ℤ × ℤ) :
    downloadCell env p zoom cell = none ↔
      env.cacheGet p.name zoom cell.1 cell.2 = none ∧
      ∀ s ∈ p.subdomains, env.net p.name s zoom cell.1 cell.2 = none := by
  unfold downloadCell
  split
  case _ t heq => simp [heq]
  case _ heq => simp [heq, List.findSome?_eq_none_iff]

theorem providerPass_count_zero_iff (env : TileEnv) (p : TileProvider) (zoom : ℕ) :
    ∀ (grid : List (ℤ × ℤ)) (st : LoopState),
      (providerPass env p zoom grid st).tilesDownloaded = 0 ↔
        st.tilesDownloaded = 0 ∧ ∀ cell ∈ grid, downloadCell env p zoom cell = none := by
  intro grid
  induction grid with
  | nil => intro st; simp [providerPass]
  | cons cell grid ih =>
    intro st
    unfold providerPass
    rw [List.foldl_cons]
    rcases hdl : downloadCell env p zoom cell with _ | ⟨t, fromCache⟩
    · dsimp only
      have := ih st
      unfold providerPass at this
      rw [this]
      simp [hdl]
    · dsimp only
      have := ih { st with
        pastes := st.pastes ++ [⟨p.name, cell.1, cell.2, t, fromCache⟩]
        tilesDownloaded := st.tilesDownloaded + 1
        tilesFromCache := st.tilesFromCache + (if fromCache then 1 else 0)
        providerUsed := some p.name
        cacheWrites := st.cacheWrites ++
          (if fromCache then [] else [(p.name, zoom, cell.1, cell.2, t)]) }
      unfold providerPass at this
      rw [this]
      simp [hdl]

theorem providerPass_count_len (env : TileEnv) (p : TileProvider) (zoom : ℕ) :
    ∀ (grid : List (ℤ × ℤ)) (st : LoopState),
      st.tilesDownloaded = st.pastes.length →
      (providerPass env p zoom grid st).tilesDownloaded =
        (providerPass env p zoom grid st).pastes.length := by
  intro grid
  induction grid with
  | nil => intro st h; simpa [providerPass] using h
  | cons cell grid ih =>
    intro st h
    unfold providerPass
    rw [List.foldl_cons]
    rcases hdl : downloadCell env p zoom cell with _ | ⟨t, fromCache⟩
    · have := ih st h
      unfold providerPass at this
      exact this
    · have := ih { st with
        pastes := st.pastes ++ [⟨p.name, cell.1, cell.2, t, fromCache⟩]
        tilesDownloaded := st.tilesDownloaded + 1
        tilesFromCache := st.tilesFromCache + (if fromCache then 1 else 0)
        providerUsed := some p.name
        cacheWrites := st.cacheWrites ++
          (if fromCache then [] else [(p.name, zoom, cell.1, cell.2, t)]) }
        (by simp [h])
      unfold providerPass at this
      exact this

theorem providerPass_provider_inv (env : TileEnv) (p : TileProvider) (zoom : ℕ) :
    ∀ (grid : List (ℤ × ℤ)) (st : LoopState),
      (∀ r ∈ st.pastes, r.provider = p.name) →
      (st.pastes ≠ [] → st.providerUsed = some p.name) →
      (∀ r ∈ (providerPass env p zoom grid st).pastes, r.provider = p.name) ∧
      ((providerPass env p zoom grid st).pastes ≠ [] →
        (providerPass env p zoom grid st).providerUsed = some p.name) := by
  intro grid
  induction grid with
  | nil => intro st h1 h2; exact ⟨h1, h2⟩
  | cons cell grid ih =>
    intro st h1 h2
    unfold providerPass
    rw [List.foldl_cons]
    rcases hdl : downloadCell env p zoom cell with _ | ⟨t, fromCache⟩
    · have := ih st h1 h2
      unfold providerPass at this
      exact this
    · have := ih { st with
        pastes := st.pastes ++ [⟨p.name, cell.1, cell.2, t, fromCache⟩]
        tilesDownloaded := st.tilesDownloaded + 1
        tilesFromCache := st.tilesFromCache + (if fromCache then 1 else 0)
        providerUsed := some p.name
        cacheWrites := st.cacheWrites ++
          (if fromCache then [] else [(p.name, zoom, cell.1, cell.2, t)]) }
        (by
          intro r hr
          rcases List.mem_append.mp hr with h | h
          · exact h1 r h
          · simpa using congrArg PasteRecord.provider (List.mem_singleton.mp h))
        (fun _ => rfl)
      unfold providerPass at this
      exact this

theorem runProviders_count_zero_iff (env : TileEnv) (zoom : ℕ) (grid : List (ℤ × ℤ)) :
    ∀ (providers : List TileProvider) (st : LoopState),
      (runProviders env providers zoom grid st).tilesDownloaded = 0 ↔
        st.tilesDownloaded = 0 ∧
          ∀ p ∈ providers, ∀ cell ∈ grid, downloadCell env p zoom cell = none := by
  intro providers
  induction providers with
  | nil => intro st; simp [runProviders]
  | cons p providers ih =>
    intro st
    unfold runProviders
    rw [List.foldl_cons]
    by_cases hc : 0 < st.tilesDownloaded
    · rw [if_pos hc]
      have := ih st
      unfold runProviders at this
      rw [this]
      constructor
      · rintro ⟨h0, _⟩
        omega
      · rintro ⟨h0, _⟩
        omega
    · rw [if_neg hc]
      have h0 : st.tilesDownloaded = 0 := by omega
      set st1 := if p.tile_size ≠ st.actualTileSize then
          { st with pastes := [], actualTileSize := p.tile_size } else st with hst1
      have hst1count : st1.tilesDownloaded = 0 := by
        rw [hst1]
        split <;> simpa using h0
      have := ih (providerPass env p zoom grid st1)
      unfold runProviders at this
      rw [this, providerPass_count_zero_iff, hst1count]
      simp [h0]

theorem runProviders_provider_inv (env : TileEnv) (zoom : ℕ) (grid : List (ℤ × ℤ)) :
    ∀ (providers : List TileProvider) (st : LoopState),
      st.tilesDownloaded = st.pastes.length →
      (∀ r ∈ st.pastes, some r.provider = st.providerUsed) →
      (runProviders env providers zoom grid st).tilesDownloaded =
        (runProviders env providers zoom grid st).pastes.length ∧
      ∀ r ∈ (runProviders env providers zoom grid st).pastes,
        some r.provider = (runProviders env providers zoom grid st).providerUsed := by
  intro providers
  induction providers with
  | nil => intro st h1 h2; exact ⟨h1, h2⟩
  | cons p providers ih =>
    intro st h1 h2
    unfold runProviders
    rw [List.foldl_cons]
    by_cases hc : 0 < st.tilesDownloaded
    · rw [if_pos hc]
      have := ih st h1 h2
      unfold runProviders at this
      exact this
    · rw [if_neg hc]
      have h0 : st.tilesDownloaded = 0 := by omega
      have hnil : st.pastes = [] := by
        have := h1
        rw [h0] at this
        exact List.eq_nil_of_length_eq_zero this.symm
      set st1 := if p.tile_size ≠ st.actualTileSize then
          { st with pastes := [], actualTileSize := p.tile_size } else st with hst1
      have hnil1 : st1.pastes = [] := by
        rw [hst1]
        split
        · rfl
        · exact hnil
      have hcount1 : st1.tilesDownloaded = st1.pastes.length := by
        rw [hnil1, hst1]
        split <;> simpa using h0
      have hprov := providerPass_provider_inv env p zoom grid st1
        (by rw [hnil1]; intro r hr; simp at hr)
        (by rw [hnil1]; intro hr; exact absurd rfl hr)
      have hused : ∀ r ∈ (providerPass env p zoom grid st1).pastes,
          some r.provider = (providerPass env p zoom grid st1).providerUsed := by
        intro r hr
        rw [hprov.1 r hr, hprov.2 (List.ne_nil_of_mem hr)]
      have := ih (providerPass env p zoom grid st1)
        (providerPass_count_len env p zoom grid st1 hcount1) hused
      unfold runProviders at this
      exact this

theorem assembleTiles_error_of_allFail (env : TileEnv) (providers : List TileProvider)
    (zoom : ℕ) (grid : List (ℤ × ℤ)) (tile_size : ℕ)
    (h : allTilesFail env providers zoom grid) :
    assembleTiles env providers zoom grid tile_size =
      .error "No map tiles could be downloaded from any provider" := by
  unfold assembleTiles
  dsimp only
  rw [if_pos]
  rw [runProviders_count_zero_iff]
  refine ⟨rfl, fun p hp cell hc => ?_⟩
  rw [downloadCell_eq_none_iff]
  exact ⟨(h p hp cell hc).1, (h p hp cell hc).2⟩

/-- C6: the basemap assembler's tile loop raises its fatal error exactly when
zero tiles were obtained from any provider — i.e. every provider misses the
cache and fails every sub-domain on every grid cell; and when the basemap
step raises inside `create_multi_activity_image`, the render does not fail:
it falls back to the solid background color and still produces an image. -/
theorem c6_error_handling :
    (∀ (env : TileEnv) (providers : List TileProvider) (zoom : ℕ) (grid : List (ℤ × ℤ))
        (tile_size : ℕ),
      isErr (assembleTiles env providers zoom grid tile_size) = true ↔
        allTilesFail env providers zoom grid) ∧
    (∀ (env : TileEnv) (use_mapbox : Bool) (mapbox_token : String)
        (activities_data : List Activity) (width_px height_px : ℕ) (map_style : String)
        (custom_zoom : Option ℤ) (background_color : String),
      isErr (create_minimal_map_background env use_mapbox mapbox_token
          ((activities_data.map (·.coordinates)).flatten) width_px height_px
          map_style custom_zoom) = true →
      create_multi_activity_image env use_mapbox mapbox_token activities_data
          width_px height_px map_style custom_zoom true background_color =
        ⟨.solidBg background_color, activities_data.map (·.coordinates)⟩) := by
  constructor
  · intro env providers zoom grid tile_size
    unfold assembleTiles
    dsimp only
    split
    case isTrue h0 =>
      simp only [isErr, true_iff]
      rw [runProviders_count_zero_iff] at h0
      intro p hp cell hc
      have := h0.2 p hp cell hc
      rw [downloadCell_eq_none_iff] at this
      exact this
    case isFalse h0 =>
      simp only [isErr, Bool.false_eq_true, false_iff]
      intro hall
      apply h0
      rw [runProviders_count_zero_iff]
      refine ⟨rfl, fun p hp cell hc => ?_⟩
      rw [downloadCell_eq_none_iff]
      exact hall p hp cell hc
  · intro env um mt acts w h style cz bg hfail
    unfold create_multi_activity_image
    dsimp only
    rw [if_pos rfl]
    rcases hres : create_minimal_map_background env um mt
        ((acts.map (·.coordinates)).flatten) w h style cz with e | pr
    · rw [hres]
    · rw [hres] at hfail
      simp [isErr] at hfail

/-- C7: provider selection is sticky per basemap-assembly call — once any
tile has been obtained from some provider the loop stops consulting later
providers — so in any successful assembly every tile composited into the
stitched raster is tagged with the single provider recorded as
`provider_used`. -/
theorem c7_sticky_provider (env : TileEnv) (providers : List TileProvider) (zoom : ℕ)
    (grid : List (ℤ × ℤ)) (tile_size : ℕ) (st : LoopState)
    (hok : assembleTiles env providers zoom grid tile_size = .ok st) :
    (∀ r ∈ st.pastes, some r.provider = st.providerUsed) ∧
    ∀ r1 ∈ st.pastes, ∀ r2 ∈ st.pastes, r1.provider = r2.provider := by
  unfold assembleTiles at hok
  dsimp only at hok
  split at hok
  · exact absurd hok (by simp)
  · have hst : runProviders env providers zoom grid
        { pastes := [], tilesDownloaded := 0, tilesFromCache := 0, providerUsed := none,
          actualTileSize := tile_size, cacheWrites := [] } = st := by
      injection hok
    have hinv := runProviders_provider_inv env zoom grid providers
      { pastes := [], tilesDownloaded := 0, tilesFromCache := 0, providerUsed := none,
        actualTileSize := tile_size, cacheWrites := [] } rfl (by intro r hr; simp at hr)
    rw [hst] at hinv
    refine ⟨hinv.2, fun r1 h1 r2 h2 => ?_⟩
    have e1 := hinv.2 r1 h1
    have e2 := hinv.2 r2 h2
    rw [← e2] at e1
    exact Option.some_inj.mp e1

theorem c7_witness :
    (∀ r ∈ cartoPasteState.pastes, some r.provider = cartoPasteState.providerUsed) ∧
    ∀ r1 ∈ cartoPasteState.pastes, ∀ r2 ∈ cartoPasteState.pastes,
      r1.provider = r2.provider :=
  c7_sticky_provider cartoOnlyEnv exProviders 1 [(0, 0)] 1024 cartoPasteState rfl

theorem c6_witness :
    create_multi_activity_image allNoneEnv true "tk" [⟨[(0, 0)]⟩] 100 100 "minimal" none
        true "white" =
      ⟨.solidBg "white", [[((0 : ℝ), (0 : ℝ))]]⟩ := by
  refine c6_error_handling.2 allNoneEnv true "tk" [⟨[(0, 0)]⟩] 100 100 "minimal" none
    "white" ?_
  unfold create_minimal_map_background
  dsimp only
  rw [assembleTiles_error_of_allFail _ _ _ _ _ (fun p _ cell _ => ⟨rfl, fun s _ => rfl⟩)]
  rfl

/-! ## Normalized Mercator Y: range and monotonicity (C4)

The claim's 85.05° limit sits barely (0.0011°) below the Web-Mercator
singular latitude `atan (sinh π) ≈ 85.05113°`, so the range proof needs the
sharp numeric inequality `tan (85.05° in radians) ≤ sinh π`, established via
Taylor bounds on `sin`, `cos` and `exp`. -/

theorem tan_limit_le_sinh_pi : Real.tan (0.4725 * π) ≤ Real.sinh π := by
  have hpi_lo := Real.pi_gt_d6
  have hpi_hi := Real.pi_lt_d6
  have hpi_pos := Real.pi_pos
  set d : ℝ := 0.0275 * π with hd
  have hdlo : 0.08639378 ≤ d := by rw [hd]; nlinarith
  have hdhi : d ≤ 0.08639381 := by rw [hd]; nlinarith
  have hd0 : (0 : ℝ) ≤ d := by nlinarith
  have hd1 : |d| ≤ 1 := by rw [abs_le]; constructor <;> nlinarith
  have hsin := Real.sin_bound hd1
  have hcos := Real.cos_bound hd1
  rw [abs_le] at hsin hcos
  rw [abs_of_nonneg hd0] at hsin hcos
  have h3d : d ^ 3 ≤ 0.00064485 := by
    calc d ^ 3 ≤ (0.08639381 : ℝ) ^ 3 := pow_le_pow_left₀ hd0 hdhi 3
      _ ≤ 0.00064485 := by norm_num
  have h4d : d ^ 4 ≤ 0.0000557109 := by
    calc d ^ 4 ≤ (0.08639381 : ℝ) ^ 4 := pow_le_pow_left₀ hd0 hdhi 4
      _ ≤ 0.0000557109 := by norm_num
  have h2d : (0.00746388 : ℝ) ≤ d ^ 2 := by
    calc (0.00746388 : ℝ) ≤ (0.08639378 : ℝ) ^ 2 := by norm_num
      _ ≤ d ^ 2 := pow_le_pow_left₀ (by norm_num) hdlo 2
  have hsinlb : (0.0862833 : ℝ) ≤ Real.sin d := by linarith [hsin.1]
  have hcosub : Real.cos d ≤ (0.9962711 : ℝ) := by linarith [hcos.2]
  have hsinpos : (0 : ℝ) < Real.sin d := by linarith
  have h45 : (0.4725 : ℝ) * π = π / 2 - d := by rw [hd]; ring
  rw [h45, Real.tan_pi_div_two_sub, Real.tan_eq_sin_div_cos, inv_div]
  have hcot : Real.cos d / Real.sin d ≤ 11.5467 := by
    rw [div_le_iff₀ hsinpos]
    nlinarith
  have hsum := Real.sum_le_exp_of_nonneg (show (0 : ℝ) ≤ 3.141592 by norm_num) 13
  have hsumval : (23.14007 : ℝ) ≤
      ∑ i ∈ Finset.range 13, (3.141592 : ℝ) ^ i / (Nat.factorial i : ℝ) := by
    norm_num [Finset.sum_range_succ, Nat.factorial]
  have hexp : (23.14007 : ℝ) ≤ Real.exp π := by
    have hmono := Real.exp_le_exp.mpr (le_of_lt hpi_lo)
    calc (23.14007 : ℝ) ≤ ∑ i ∈ Finset.range 13, (3.141592 : ℝ) ^ i / (Nat.factorial i : ℝ) :=
        hsumval
      _ ≤ Real.exp 3.141592 := hsum
      _ ≤ Real.exp π := hmono
  have hexpneg : Real.exp (-π) ≤ 0.04322 := by
    rw [Real.exp_neg]
    calc (Real.exp π)⁻¹ ≤ (23.14007 : ℝ)⁻¹ := inv_anti₀ (by norm_num) hexp
      _ ≤ 0.04322 := by norm_num
  have hsinh : (11.5467 : ℝ) ≤ Real.sinh π := by
    rw [Real.sinh_eq]
    linarith
  linarith

theorem arsinh_tan_bounds (lat : ℝ) (h : |lat| ≤ 85.05) :
    -π ≤ Real.arsinh (Real.tan (lat * π / 180)) ∧
      Real.arsinh (Real.tan (lat * π / 180)) ≤ π := by
  have hpi := Real.pi_pos
  rw [abs_le] at h
  have hθhi : lat * π / 180 ≤ 0.4725 * π := by nlinarith [h.2]
  have hθlo : -(0.4725 * π) ≤ lat * π / 180 := by nlinarith [h.1]
  have hhalf : (0.4725 : ℝ) * π < π / 2 := by nlinarith
  have hmem1 : lat * π / 180 ∈ Set.Ioo (-(π / 2)) (π / 2) :=
    ⟨by nlinarith, by nlinarith⟩
  have hmem2 : (0.4725 : ℝ) * π ∈ Set.Ioo (-(π / 2)) (π / 2) :=
    ⟨by nlinarith, hhalf⟩
  have hmem3 : -((0.4725 : ℝ) * π) ∈ Set.Ioo (-(π / 2)) (π / 2) :=
    ⟨by nlinarith, by nlinarith⟩
  have htanhi : Real.tan (lat * π / 180) ≤ Real.tan (0.4725 * π) :=
    Real.strictMonoOn_tan.monotoneOn hmem1 hmem2 hθhi
  have htanlo : Real.tan (-(0.4725 * π)) ≤ Real.tan (lat * π / 180) :=
    Real.strictMonoOn_tan.monotoneOn hmem3 hmem1 hθlo
  rw [Real.tan_neg] at htanlo
  constructor
  · have h1 : Real.sinh (-π) ≤ Real.tan (lat * π / 180) := by
      rw [Real.sinh_neg]
      linarith [tan_limit_le_sinh_pi]
    have h2 := Real.arsinh_le_arsinh.mpr h1
    rwa [Real.arsinh_sinh] at h2
  · have h1 : Real.tan (lat * π / 180) ≤ Real.sinh π :=
      le_trans htanhi tan_limit_le_sinh_pi
    have h2 := Real.arsinh_le_arsinh.mpr h1
    rwa [Real.arsinh_sinh] at h2

/-- C4: for every latitude within the practical Web-Mercator limit
(|lat| ≤ 85.05°), `lat_to_mercator_y` lies in `[0, 1]`, and it increases
monotonically southward — strictly decreasing as latitude increases. -/
theorem c4_mercator_y_range_monotone :
    (∀ lat : ℝ, |lat| ≤ 85.05 →
      0 ≤ lat_to_mercator_y lat ∧ lat_to_mercator_y lat ≤ 1) ∧
    (∀ lat1 lat2 : ℝ, -85.05 ≤ lat1 → lat1 < lat2 → lat2 ≤ 85.05 →
      lat_to_mercator_y lat2 < lat_to_mercator_y lat1) := by
  have hpi := Real.pi_pos
  constructor
  · intro lat h
    obtain ⟨hlo, hhi⟩ := arsinh_tan_bounds lat h
    unfold lat_to_mercator_y
    constructor
    · have hle : Real.arsinh (Real.tan (lat * π / 180)) / π ≤ 1 := by
        rw [div_le_one hpi]
        exact hhi
      linarith
    · have hge : (-1 : ℝ) ≤ Real.arsinh (Real.tan (lat * π / 180)) / π := by
        rw [le_div_iff₀ hpi]
        linarith
      linarith
  · intro lat1 lat2 h1 hlt h2
    have hθ : lat1 * π / 180 < lat2 * π / 180 := by nlinarith
    have hmem1 : lat1 * π / 180 ∈ Set.Ioo (-(π / 2)) (π / 2) :=
      ⟨by nlinarith, by nlinarith⟩
    have hmem2 : lat2 * π / 180 ∈ Set.Ioo (-(π / 2)) (π / 2) :=
      ⟨by nlinarith, by nlinarith⟩
    have htan := Real.strictMonoOn_tan hmem1 hmem2 hθ
    have hars := Real.arsinh_lt_arsinh.mpr htan
    unfold lat_to_mercator_y
    have hdiv : Real.arsinh (Real.tan (lat1 * π / 180)) / π <
        Real.arsinh (Real.tan (lat2 * π / 180)) / π :=
      (div_lt_div_iff_of_pos_right hpi).mpr hars
    linarith

theorem c4_witness :
    (|(0 : ℝ)| ≤ 85.05 ∧ 0 ≤ lat_to_mercator_y 0 ∧ lat_to_mercator_y 0 ≤ 1) ∧
    (-85.05 ≤ (0 : ℝ) ∧ (0 : ℝ) < 1 ∧ (1 : ℝ) ≤ 85.05 ∧
      lat_to_mercator_y 1 < lat_to_mercator_y 0) := by
  have h := c4_mercator_y_range_monotone
  exact ⟨⟨by norm_num, (h.1 0 (by norm_num)).1, (h.1 0 (by norm_num)).2⟩,
    by norm_num, by norm_num, by norm_num,
    h.2 0 1 (by norm_num) (by norm_num) (by norm_num)⟩

end StravaWrapped
